import Mathlib

/-
Verification development for the markdown-to-JSON privacy-policy converter
(`exampleCode.py`).  The Python source is shallowly embedded: strings are
`List Char`, the regular expressions of the source are modelled by concrete
backtracking matchers that follow the semantics of the specific patterns used
(line anchors in multiline mode, greedy and lazy repetition, character
classes restricted to the ASCII range that the repository's documents use),
and `datetime` errors become an explicit error type.
-/

namespace MdToJson

/-- Python whitespace test (`\s`, `str.strip`), ASCII range. -/
def pyWs (c : Char) : Bool :=
  c == ' ' || c == '\t' || c == '\n' || c == '\r' || c == '\x0b' || c == '\x0c'

/-- Drop trailing whitespace. -/
def pyStripEnd (s : List Char) : List Char :=
  (s.reverse.dropWhile pyWs).reverse

/-- Python `str.strip()`. -/
def pyStrip (s : List Char) : List Char :=
  pyStripEnd (s.dropWhile pyWs)

/-- Numeric value of an ASCII digit. -/
def digitVal (c : Char) : Nat := c.toNat - 48

/-- First alternative of an ordered candidate list that the continuation
accepts: the backtracking order of a regex alternation. -/
def firstSome : List α → (α → Option β) → Option β
  | [], _ => none
  | a :: as, f =>
    match f a with
    | some b => some b
    | none => firstSome as f

/-- Calendar date as produced by Python `datetime` (no time component). -/
structure PyDate where
  year : Nat
  month : Nat
  day : Nat
deriving DecidableEq

/-- Error kinds of date extraction: `missingDate` for the two raises that
report no usable date text, `invalidDate` for a `datetime` constructor
failure on an out-of-range calendar combination. -/
inductive DateError
  | missingDate
  | invalidDate
deriving DecidableEq

instance : DecidableEq (Except DateError PyDate) := fun a b =>
  match a, b with
  | .ok x, .ok y => decidable_of_iff (x = y) (by simp)
  | .error x, .error y => decidable_of_iff (x = y) (by simp)
  | .ok _, .error _ => isFalse (by simp)
  | .error _, .ok _ => isFalse (by simp)

/-- Gregorian leap year, as `datetime` validates it. -/
def isLeap (y : Nat) : Bool :=
  y % 4 == 0 && (y % 100 != 0 || y % 400 == 0)

/-- Days in a month, as `datetime` validates it. -/
def daysInMonth (y m : Nat) : Nat :=
  if m == 2 then (if isLeap y then 29 else 28)
  else if m == 4 || m == 6 || m == 9 || m == 11 then 30
  else 31

/-- Validity check done by the `datetime(year, month, day)` constructor. -/
def validDatetime (y m d : Nat) : Bool :=
  1 ≤ y && y ≤ 9999 && 1 ≤ m && m ≤ 12 && 1 ≤ d && d ≤ daysInMonth y m

/-- `datetime(y, m, d)`: a date on success, `InvalidDate` on a range error. -/
def mkDatetime (y m d : Nat) : Except DateError PyDate :=
  if validDatetime y m d then .ok ⟨y, m, d⟩ else .error .invalidDate

/-!
`strptime` models for the five formats of `_try_parse_date`.  CPython
compiles each format to a regex (`%d` → `3[01]|[12]\d|0[1-9]|[1-9]`,
`%m` → `1[0-2]|0[1-9]|[1-9]`, `%Y` → four digits, whitespace → `\s+`,
month names case-insensitively), matches it at the start of the string,
rejects the parse when unconverted data remains, and finally validates the
calendar combination through the `datetime` constructor.  The candidate
lists below enumerate the alternation branches in their regex order.
-/

/-- Branches of the `%d` strptime regex in alternation order. -/
def dayCands : List Char → List (Nat × List Char)
  | a :: b :: r =>
    (if a == '3' && (b == '0' || b == '1') then [(30 + digitVal b, r)] else []) ++
    (if (a == '1' || a == '2') && b.isDigit then [(10 * digitVal a + digitVal b, r)] else []) ++
    (if a == '0' && b.isDigit && b != '0' then [(digitVal b, r)] else []) ++
    (if a.isDigit && a != '0' then [(digitVal a, b :: r)] else [])
  | [a] => if a.isDigit && a != '0' then [(digitVal a, [])] else []
  | [] => []

/-- Branches of the `%m` strptime regex in alternation order. -/
def monCands : List Char → List (Nat × List Char)
  | a :: b :: r =>
    (if a == '1' && (b == '0' || b == '1' || b == '2') then [(10 + digitVal b, r)] else []) ++
    (if a == '0' && b.isDigit && b != '0' then [(digitVal b, r)] else []) ++
    (if a.isDigit && a != '0' then [(digitVal a, b :: r)] else [])
  | [a] => if a.isDigit && a != '0' then [(digitVal a, [])] else []
  | [] => []

/-- The `%Y` strptime regex: exactly four digits. -/
def fourDigits : List Char → Option (Nat × List Char)
  | a :: b :: c :: d :: r =>
    if a.isDigit && b.isDigit && c.isDigit && d.isDigit then
      some (1000 * digitVal a + 100 * digitVal b + 10 * digitVal c + digitVal d, r)
    else none
  | _ => none

/-- A literal separator character. -/
def litChar (c : Char) : List Char → Option (List Char)
  | a :: r => if a == c then some r else none
  | [] => none

/-- `\s+`: at least one whitespace character, consumed greedily (the
following token of every use never begins with whitespace). -/
def wsPlus : List Char → Option (List Char)
  | a :: r => if pyWs a then some (r.dropWhile pyWs) else none
  | [] => none

/-- Case-insensitive literal word (pattern given in lowercase). -/
def litCI : List Char → List Char → Option (List Char)
  | [], s => some s
  | _ :: _, [] => none
  | c :: cs, d :: ds => if d.toLower == c then litCI cs ds else none

/-- English month abbreviations for `%b`, with their month numbers. -/
def monthAbbrs : List (List Char × Nat) :=
  [("jan".data, 1), ("feb".data, 2), ("mar".data, 3), ("apr".data, 4),
   ("may".data, 5), ("jun".data, 6), ("jul".data, 7), ("aug".data, 8),
   ("sep".data, 9), ("oct".data, 10), ("nov".data, 11), ("dec".data, 12)]

/-- English full month names for `%B`, with their month numbers. -/
def monthFulls : List (List Char × Nat) :=
  [("january".data, 1), ("february".data, 2), ("march".data, 3),
   ("april".data, 4), ("may".data, 5), ("june".data, 6), ("july".data, 7),
   ("august".data, 8), ("september".data, 9), ("october".data, 10),
   ("november".data, 11), ("december".data, 12)]

/-- Month-name alternation (no name is a prefix of another, so at most one
branch matches and the alternation order is immaterial). -/
def monthName (names : List (List Char × Nat)) (s : List Char) : Option (Nat × List Char) :=
  firstSome names fun p => (litCI p.1 s).map fun r => (p.2, r)

/-- Regex phase of `strptime` for `%d SEP %m SEP %Y`: the first lexical
match in backtracking order, before the end-of-input and calendar checks. -/
def matchNumFmt (sep : Char) (s : List Char) : Option (Nat × Nat × Nat × List Char) :=
  firstSome (dayCands s) fun p =>
    (litChar sep p.2).bind fun r2 =>
      firstSome (monCands r2) fun q =>
        (litChar sep q.2).bind fun r4 =>
          (fourDigits r4).map fun y => (p.1, q.1, y.1, y.2)

/-- Regex phase of `strptime` for `%d NAME %Y` with a month-name table. -/
def matchNameFmt (names : List (List Char × Nat)) (s : List Char) :
    Option (Nat × Nat × Nat × List Char) :=
  firstSome (dayCands s) fun p =>
    (wsPlus p.2).bind fun r2 =>
      (monthName names r2).bind fun q =>
        (wsPlus q.2).bind fun r4 =>
          (fourDigits r4).map fun y => (p.1, q.1, y.1, y.2)

/-- `datetime.strptime(s, fmt)` outcome: the regex must match, consume the
whole string, and the matched numbers must form a valid date; any failure
raises `ValueError`, which the caller's loop treats as `none`. -/
def strptimeOutcome (m : Option (Nat × Nat × Nat × List Char)) : Option PyDate :=
  match m with
  | some (d, mo, y, rem) =>
      if rem = [] then (if validDatetime y mo d then some ⟨y, mo, d⟩ else none)
      else none
  | none => none

def strptimeSlash (s : List Char) : Option PyDate := strptimeOutcome (matchNumFmt '/' s)

def strptimeDash (s : List Char) : Option PyDate := strptimeOutcome (matchNumFmt '-' s)

def strptimeDot (s : List Char) : Option PyDate := strptimeOutcome (matchNumFmt '.' s)

def strptimeAbbr (s : List Char) : Option PyDate := strptimeOutcome (matchNameFmt monthAbbrs s)

def strptimeFull (s : List Char) : Option PyDate := strptimeOutcome (matchNameFmt monthFulls s)

/-- The `for fmt in fmts` loop of `_try_parse_date`: formats tried in
order, first success wins. -/
def strptimeList (s : List Char) : Option PyDate :=
  match strptimeSlash s with
  | some d => some d
  | none =>
    match strptimeDash s with
    | some d => some d
    | none =>
      match strptimeDot s with
      | some d => some d
      | none =>
        match strptimeAbbr s with
        | some d => some d
        | none => strptimeFull s

/-- `re.findall(r"\d+", s)` converted through `int`: the values of the
maximal digit runs, in order.  `acc` carries a run in progress. -/
def digitRunsGo : Option Nat → List Char → List Nat
  | some n, [] => [n]
  | none, [] => []
  | some n, c :: cs =>
      if c.isDigit then digitRunsGo (some (10 * n + digitVal c)) cs
      else n :: digitRunsGo none cs
  | none, c :: cs =>
      if c.isDigit then digitRunsGo (some (digitVal c)) cs
      else digitRunsGo none cs

def digitRuns (s : List Char) : List Nat := digitRunsGo none s

/-- `_try_parse_date`: strip, try the five formats in order, then the
digit fallback (first three digit runs read as day, month, year), then the
final `ValueError` for unrecognised input. -/
def «_try_parse_date» (raw : List Char) : Except DateError PyDate :=
  let r := pyStrip raw
  match strptimeList r with
  | some d => .ok d
  | none =>
    match digitRuns r with
    | d :: mth :: y :: _ => mkDatetime y mth d
    | _ => .error .missingDate

/-!
The three label patterns of `parse_last_updated` share the shape
`(?im)^\s*LABEL\s*[:\-]?\s*(.+?)\s*$`.  In multiline mode `^` matches at
the start of the text and after each newline, `\s` may cross newlines, `.`
may not, and `$` matches at the end of the text or before a newline.  The
matchers below realise the backtracking order of the pattern at one line
start; the search tries the line starts from left to right, which is the
leftmost-match rule of `re.search` for a `^`-anchored pattern.
-/

/-- Whether `\s*$` can succeed from this position (used to place the end
of the lazy group `(.+?)`). -/
def canClose : List Char → Bool
  | [] => true
  | c :: cs => if c == '\n' then true else if pyWs c then canClose cs else false

/-- `(.+?)\s*$`: the lazy group takes the shortest non-empty run of
non-newline characters after which `\s*$` succeeds; returns the group. -/
def matchTail : List Char → Option (List Char)
  | [] => none
  | c :: cs =>
    if c == '\n' then none
    else if canClose cs then some [c]
    else (matchTail cs).map (c :: ·)

/-- `\s*(.+?)\s*$` with a greedy leading `\s*`: the group is attempted at
the position after the maximal whitespace run first, then backtracking
hands whitespace characters back to the group one at a time. -/
def matchWsTail : List Char → Option (List Char)
  | [] => none
  | c :: cs =>
    if pyWs c then
      match matchWsTail cs with
      | some g => some g
      | none => matchTail (c :: cs)
    else matchTail (c :: cs)

/-- `\s*[:\-]?\s*(.+?)\s*$` after the label word: the optional separator
is preferred (it can only sit after the maximal whitespace run), and on
failure the pattern degenerates to `\s*(.+?)\s*$`. -/
def matchRestAfterLabel (rest : List Char) : Option (List Char) :=
  match rest.dropWhile pyWs with
  | c :: cs =>
    if c == ':' || c == '-' then
      match matchWsTail cs with
      | some g => some g
      | none => matchWsTail rest
    else matchWsTail rest
  | [] => matchWsTail rest

/-- `^\s*last\s*updated\s*[:\-]?\s*(.+?)\s*$` at one line start
(case-insensitive; the inner `\s*` runs are deterministic because the
label words start with non-whitespace letters). -/
def matchLastUpdatedAt (s : List Char) : Option (List Char) :=
  (litCI "last".data (s.dropWhile pyWs)).bind fun s2 =>
  (litCI "updated".data (s2.dropWhile pyWs)).bind fun s3 =>
  matchRestAfterLabel s3

/-- `^\s*updated\s*[:\-]?\s*(.+?)\s*$` at one line start. -/
def matchUpdatedAt (s : List Char) : Option (List Char) :=
  (litCI "updated".data (s.dropWhile pyWs)).bind fun s2 =>
  matchRestAfterLabel s2

/-- `^\s*effective\s*(?:date|as\s*of)\s*[:\-]?\s*(.+?)\s*$` at one line
start; the alternation tries `date` first, then `as\s*of`. -/
def matchEffectiveAt (s : List Char) : Option (List Char) :=
  (litCI "effective".data (s.dropWhile pyWs)).bind fun s2 =>
  let s3 := s2.dropWhile pyWs
  match (litCI "date".data s3).bind matchRestAfterLabel with
  | some g => some g
  | none =>
    (litCI "as".data s3).bind fun s4 =>
    (litCI "of".data (s4.dropWhile pyWs)).bind fun s5 =>
    matchRestAfterLabel s5

/-- `re.search` for a `(?m)^`-anchored pattern: try the matcher at every
line start, from left to right.  The flag records whether the current
position follows a newline (or is the start of the text). -/
def searchLineStarts (m : List Char → Option (List Char)) :
    Bool → List Char → Option (List Char)
  | atLS, s =>
    match (if atLS then m s else none) with
    | some g => some g
    | none =>
      match s with
      | [] => none
      | c :: cs => searchLineStarts m (c == '\n') cs

def searchLastUpdated (s : List Char) : Option (List Char) :=
  searchLineStarts matchLastUpdatedAt true s

def searchUpdated (s : List Char) : Option (List Char) :=
  searchLineStarts matchUpdatedAt true s

def searchEffective (s : List Char) : Option (List Char) :=
  searchLineStarts matchEffectiveAt true s

/-- `\d{1,2}` of the fallback pattern: greedy, two digits preferred. -/
def digits12 : List Char → List (List Char × List Char)
  | a :: b :: r =>
    (if a.isDigit && b.isDigit then [([a, b], r)] else []) ++
    (if a.isDigit then [([a], b :: r)] else [])
  | [a] => if a.isDigit then [([a], [])] else []
  | [] => []

/-- `[./\-]` of the fallback pattern. -/
def sepDMY : List Char → Option (Char × List Char)
  | c :: r => if c == '.' || c == '/' || c == '-' then some (c, r) else none
  | [] => none

/-- `\d{4}` of the fallback pattern (text form, trailing input ignored:
the pattern is unanchored on the right). -/
def fourDigitsText : List Char → Option (List Char)
  | a :: b :: c :: d :: _ =>
    if a.isDigit && b.isDigit && c.isDigit && d.isDigit then some [a, b, c, d] else none
  | _ => none

/-- `\d{1,2}[./\-]\d{1,2}[./\-]\d{4}` anchored at the current position;
returns the matched substring. -/
def matchNumDateAt (s : List Char) : Option (List Char) :=
  firstSome (digits12 s) fun p =>
    (sepDMY p.2).bind fun q =>
      firstSome (digits12 q.2) fun p2 =>
        (sepDMY p2.2).bind fun q2 =>
          (fourDigitsText q2.2).map fun t =>
            p.1 ++ q.1 :: (p2.1 ++ q2.1 :: t)

/-- Unanchored `re.search`: try every position from left to right. -/
def searchAllPos (m : List Char → Option (List Char)) : List Char → Option (List Char)
  | [] => m []
  | c :: cs =>
    match m (c :: cs) with
    | some g => some g
    | none => searchAllPos m cs

def searchNumericDate (s : List Char) : Option (List Char) :=
  searchAllPos matchNumDateAt s

/-- The dash/colon normalisation at the top of `parse_last_updated`. -/
def normalise (s : List Char) : List Char :=
  s.map fun c =>
    if c == '—' || c == '–' then '-' else if c == '：' then ':' else c

/-- `parse_last_updated`: the three label patterns in priority order, then
the document-wide numeric fallback, then the final raise. -/
def parse_last_updated (md : List Char) : Except DateError PyDate :=
  let n := normalise md
  match searchLastUpdated n with
  | some g => «_try_parse_date» g
  | none =>
  match searchUpdated n with
  | some g => «_try_parse_date» g
  | none =>
  match searchEffective n with
  | some g => «_try_parse_date» g
  | none =>
  match searchNumericDate n with
  | some g => «_try_parse_date» g
  | none => .error .missingDate

/-!
`convert_inline_markdown`: five `re.sub` passes in a fixed order.  Each
pass is a left-to-right scan; at every position the pattern is attempted,
on success the replacement is emitted and the scan resumes after the
match, otherwise one character is copied.  The scanners take a fuel
argument (one unit per scan step, `length + 1` is always sufficient)
because the resume position is not a structural subterm.
-/

/-- Earliest closing backtick: splits at the first backtick of the list. -/
def findCloseTick : List Char → Option (List Char × List Char)
  | [] => none
  | c :: cs =>
    if c == '\x60' then some ([], cs)
    else (findCloseTick cs).map fun p => (c :: p.1, p.2)

/-- One attempt of the `_md_code` pattern: a backtick, a non-empty run of
non-backtick characters, a backtick. -/
def codeAt : List Char → Option (List Char × List Char)
  | [] => none
  | c :: cs =>
    if c == '\x60' then
      match findCloseTick cs with
      | some (inner, rem) => if inner = [] then none else some (inner, rem)
      | none => none
    else none

def codeOpen : List Char :=
  ("<code class=\x27bg-gray-100 px-1 py-0.5 rounded text-sm\x27>").data

def codeClose : List Char := ("</code>").data

def subCodeF : Nat → List Char → List Char
  | 0, s => s
  | _ + 1, [] => []
  | f + 1, c :: cs =>
    match codeAt (c :: cs) with
    | some (inner, rem) => codeOpen ++ inner ++ codeClose ++ subCodeF f rem
    | none => c :: subCodeF f cs

/-- The `_md_code` substitution pass. -/
def subCode (s : List Char) : List Char := subCodeF (s.length + 1) s

/-- Earliest doubled delimiter `dd`: the lazy `[\s\S]*?` of the strong
pattern stops at the first position where two delimiter characters are
adjacent. -/
def findCloseSS (d : Char) : List Char → Option (List Char × List Char)
  | a :: b :: rest =>
    if a == d && b == d then some ([], rest)
    else (findCloseSS d (b :: rest)).map fun p => (a :: p.1, p.2)
  | _ => none

/-- One attempt of the `_md_strong` alternation
`\*\*([^*][\s\S]*?)\*\*|__([^_][\s\S]*?)__` (the two branches have
disjoint head characters). -/
def strongAt : List Char → Option (List Char × List Char)
  | a :: b :: c :: rest =>
    if a == '*' && b == '*' && c != '*' then
      (findCloseSS '*' rest).map fun p => (c :: p.1, p.2)
    else if a == '_' && b == '_' && c != '_' then
      (findCloseSS '_' rest).map fun p => (c :: p.1, p.2)
    else none
  | _ => none

def subStrongF : Nat → List Char → List Char
  | 0, s => s
  | _ + 1, [] => []
  | f + 1, c :: cs =>
    match strongAt (c :: cs) with
    | some (inner, rem) =>
        ("<strong>").data ++ inner ++ ("</strong>").data ++ subStrongF f rem
    | none => c :: subStrongF f cs

/-- The `_md_strong` substitution pass. -/
def subStrong (s : List Char) : List Char := subStrongF (s.length + 1) s

/-- Earliest star that is not followed by another star (the close of the
emphasis branch `\*([^*][\s\S]*?)\*(?!\*)`). -/
def findCloseEm : List Char → Option (List Char × List Char)
  | [] => none
  | c :: cs =>
    if c == '*' then
      match cs with
      | [] => some ([], [])
      | d :: _ =>
        if d == '*' then (findCloseEm cs).map fun p => (c :: p.1, p.2)
        else some ([], cs)
    else (findCloseEm cs).map fun p => (c :: p.1, p.2)

/-- Earliest underscore (the close of the branch `_([^_][\s\S]*?)_`). -/
def findCloseUnd : List Char → Option (List Char × List Char)
  | [] => none
  | c :: cs =>
    if c == '_' then some ([], cs)
    else (findCloseUnd cs).map fun p => (c :: p.1, p.2)

/-- One attempt of the `_md_em` alternation
`(?<!\*)\*([^*][\s\S]*?)\*(?!\*)|_([^_][\s\S]*?)_`; `prev` is the
character before the current position in the original text, examined by
the lookbehind. -/
def emAt (prev : Option Char) : List Char → Option (List Char × Char × List Char)
  | a :: c :: rest =>
    if a == '*' && prev != some '*' && c != '*' then
      (findCloseEm rest).map fun p => (c :: p.1, '*', p.2)
    else if a == '_' && c != '_' then
      (findCloseUnd rest).map fun p => (c :: p.1, '_', p.2)
    else none
  | _ => none

def subEmF : Nat → Option Char → List Char → List Char
  | 0, _, s => s
  | _ + 1, _, [] => []
  | f + 1, prev, c :: cs =>
    match emAt prev (c :: cs) with
    | some (inner, d, rem) =>
        ("<em>").data ++ inner ++ ("</em>").data ++ subEmF f (some d) rem
    | none => c :: subEmF f (some c) cs

/-- The `_md_em` substitution pass. -/
def subEm (s : List Char) : List Char := subEmF (s.length + 1) none s

/-- Earliest closing bracket of the given kind. -/
def findCloseBr (d : Char) : List Char → Option (List Char × List Char)
  | [] => none
  | c :: cs =>
    if c == d then some ([], cs)
    else (findCloseBr d cs).map fun p => (c :: p.1, p.2)

/-- One attempt of the `_md_link` pattern `\[([^\]]+)\]\(([^)]+)\)`. -/
def linkAt : List Char → Option (List Char × List Char × List Char)
  | [] => none
  | c :: cs =>
    if c == '[' then
      match findCloseBr ']' cs with
      | some (label, rest2) =>
        if label = [] then none
        else
          match rest2 with
          | '(' :: rest3 =>
            match findCloseBr ')' rest3 with
            | some (url, rem) => if url = [] then none else some (label, url, rem)
            | none => none
          | _ => none
      | none => none
    else none

def linkMid : List Char := ("\" class=\"text-primary hover:text-blue-600 underline\">").data

def subLinkF : Nat → List Char → List Char
  | 0, s => s
  | _ + 1, [] => []
  | f + 1, c :: cs =>
    match linkAt (c :: cs) with
    | some (label, url, rem) =>
        ("<a href=\"").data ++ url ++ linkMid ++ label ++ ("</a>").data ++ subLinkF f rem
    | none => c :: subLinkF f cs

/-- The `_md_link` substitution pass. -/
def subLink (s : List Char) : List Char := subLinkF (s.length + 1) s

/-- The `_md_two_space_break` pass: literal two spaces + newline become
a break element followed by a newline. -/
def subBrk : List Char → List Char
  | ' ' :: ' ' :: '\n' :: rest => ("<br>\n").data ++ subBrk rest
  | c :: rest => c :: subBrk rest
  | [] => []

/-- `convert_inline_markdown`: empty input is returned as is, otherwise
the five passes run in the order code, strong, emphasis, link, break. -/
def convert_inline_markdown (text : List Char) : List Char :=
  if text = [] then text
  else subBrk (subLink (subEm (subStrong (subCode text))))

/-!
`convert_markdown_to_html`: first the header pre-pass
`re.sub(r'^###\s+(.+?)$', ..., flags=re.MULTILINE)`, then a line-oriented
state machine over `text.split('\n')` with stripped lines, then
`'\n'.join(result_lines)`.
-/

/-- `\s+(.+?)$` after `###`: greedy `\s+` tried from the maximal
whitespace run down to one character; for a fixed run the lazy group is
the rest of the current line, which must be non-empty.  Returns the group
and the unconsumed remainder (`$` is zero width). -/
def h3Go : Nat → List Char → Option (List Char × List Char)
  | 0, _ => none
  | i + 1, rest =>
    match rest.drop (i + 1) with
    | c :: t =>
      if c != '\n' then
        some ((c :: t).takeWhile (fun x => x != '\n'), (c :: t).dropWhile (fun x => x != '\n'))
      else h3Go i rest
    | [] => h3Go i rest

/-- One attempt of the header pattern at a line start. -/
def h3At : List Char → Option (List Char × List Char)
  | '#' :: '#' :: '#' :: rest => h3Go ((rest.takeWhile pyWs).length) rest
  | _ => none

def h3Open : List Char :=
  ("<h3 class=\"text-lg font-medium text-gray-900 mt-4 mb-2\">").data

def h3Close : List Char := ("</h3>").data

/-- `re.sub` of the header pattern in multiline mode: attempt the pattern
at every line start, copy elsewhere.  After a replacement the scan resumes
before the newline that ended the headline, which is not a line start. -/
def subH3F : Nat → Bool → List Char → List Char
  | 0, _, s => s
  | _ + 1, _, [] => []
  | f + 1, atLS, c :: cs =>
    match (if atLS then h3At (c :: cs) else none) with
    | some (g, rem) => h3Open ++ g ++ h3Close ++ subH3F f false rem
    | none => c :: subH3F f (c == '\n') cs

/-- The header pre-pass. -/
def subH3 (s : List Char) : List Char := subH3F (s.length + 1) true s

/-- Python `text.split('\n')`. -/
def splitLines : List Char → List (List Char)
  | [] => [[]]
  | '\n' :: rest => [] :: splitLines rest
  | c :: rest =>
    match splitLines rest with
    | l :: ls => (c :: l) :: ls
    | [] => [[c]]

/-- Python `'\n'.join(lines)`. -/
def joinNL : List (List Char) → List Char
  | [] => []
  | [l] => l
  | l :: ls => l ++ '\n' :: joinNL ls

/-- Mutable locals of the line loop of `convert_markdown_to_html`. -/
structure MdState where
  inList : Bool
  inBq : Bool
  listItems : List (List Char)
  bqItems : List (List Char)
  res : List (List Char)
deriving DecidableEq

def initState : MdState := ⟨false, false, [], [], []⟩

/-- `list_items[-1] += ' ' + line` guarded by `if list_items:`. -/
def appendToLast : List (List Char) → List Char → List (List Char)
  | [], _ => []
  | [it], l => [it ++ ' ' :: l]
  | it :: rest, l => it :: appendToLast rest l

def liFrag (item : List Char) : List Char :=
  ("<li>").data ++ convert_inline_markdown item ++ ("</li>").data

/-- List fragment lines of the blank-line and end-of-input flushes. -/
def ulFragOutside (items : List (List Char)) : List (List Char) :=
  ("<ul class=\"list-disc list-outside mb-4 space-y-1 pl-5\">").data
    :: items.map liFrag ++ [("</ul>").data]

/-- List fragment lines of the (unreachable) regular-content flush. -/
def ulFragInside (items : List (List Char)) : List (List Char) :=
  ("<ul class=\"list-disc list-inside mb-4 space-y-1\">").data
    :: items.map liFrag ++ [("</ul>").data]

def bqHeader : List (List Char) :=
  [("<div class=\"bg-gradient-to-r from-blue-50 to-indigo-50 border-l-4 border-blue-600 rounded-r-lg px-4 py-2 mb-4 shadow-sm\">").data,
   ("<div class=\"flex items-start\">").data,
   ("<div class=\"flex-shrink-0 mr-3\">").data,
   ("<svg class=\"w-5 h-5 text-blue-500 mt-0.5\" fill=\"currentColor\" viewBox=\"0 0 20 20\">").data,
   ("<path fill-rule=\"evenodd\" d=\"M18 10a8 8 0 11-16 0 8 8 0 0116 0zm-7-4a1 1 0 11-2 0 1 1 0 012 0zM9 9a1 1 0 000 2v3a1 1 0 001 1h1a1 1 0 100-2v-3a1 1 0 00-1-1H9z\" clip-rule=\"evenodd\"></path>").data,
   ("</svg>").data,
   ("</div>").data,
   ("<div class=\"flex-1\">").data]

/-- Blockquote fragment lines; `pOpen` is the per-item paragraph opening
(`leading-tight mb-0` in the two mid-text flushes, `leading-relaxed` in
the end-of-input flush). -/
def bqFrag (pOpen : List Char) (items : List (List Char)) : List (List Char) :=
  bqHeader
    ++ items.map (fun it => pOpen ++ convert_inline_markdown it ++ ("</p>").data)
    ++ [("</div>").data, ("</div>").data, ("</div>").data]

def pOpenTight : List Char :=
  ("<p class=\"text-gray-800 font-medium leading-tight mb-0\">").data

def pOpenRelaxed : List Char :=
  ("<p class=\"text-gray-800 font-medium leading-relaxed\">").data

def pFrag (line : List Char) : List Char :=
  ("<p class=\"mb-4\">").data ++ convert_inline_markdown line ++ ("</p>").data

/-- The blank-line branch: flush the open list, then the open blockquote. -/
def blankFlush (st : MdState) : MdState :=
  let st1 :=
    if st.inList && !st.listItems.isEmpty then
      { st with res := st.res ++ ulFragOutside st.listItems, listItems := [], inList := false }
    else st
  if st1.inBq && !st1.bqItems.isEmpty then
    { st1 with res := st1.res ++ bqFrag pOpenTight st1.bqItems, bqItems := [], inBq := false }
  else st1

/-- The final `else` branch (regular content): flush-before-content for
lists and blockquotes, then emit a paragraph for a non-empty line. -/
def elseBranch (st : MdState) (line : List Char) : MdState :=
  let st1 :=
    if st.inList && !st.listItems.isEmpty then
      { st with res := st.res ++ ulFragInside st.listItems, listItems := [], inList := false }
    else st
  let st2 :=
    if st1.inBq && !st1.bqItems.isEmpty then
      { st1 with res := st1.res ++ bqFrag pOpenTight st1.bqItems, bqItems := [], inBq := false }
    else st1
  if !line.isEmpty then { st2 with res := st2.res ++ [pFrag line] } else st2

/-- One iteration of the line loop on an already stripped line. -/
def processLine (st : MdState) (line : List Char) : MdState :=
  if List.isPrefixOf ('-' :: [' ']) line then
    let st1 := if st.inList then st else { st with inList := true, listItems := [] }
    { st1 with listItems := st1.listItems ++ [line.drop 2] }
  else if List.isPrefixOf ['-'] line then
    let st1 := if st.inList then st else { st with inList := true, listItems := [] }
    { st1 with listItems := st1.listItems ++ [pyStrip (line.drop 1)] }
  else if List.isPrefixOf ('>' :: [' ']) line then
    let st1 := if st.inBq then st else { st with inBq := true, bqItems := [] }
    { st1 with bqItems := st1.bqItems ++ [line.drop 2] }
  else if List.isPrefixOf ['>'] line then
    let st1 := if st.inBq then st else { st with inBq := true, bqItems := [] }
    { st1 with bqItems := st1.bqItems ++ [pyStrip (line.drop 1)] }
  else if st.inList && !line.isEmpty then
    { st with listItems := appendToLast st.listItems line }
  else if st.inBq && !line.isEmpty then
    { st with bqItems := appendToLast st.bqItems line }
  else if (st.inList || st.inBq) && line.isEmpty then
    blankFlush st
  else
    elseBranch st line

/-- The trailing flush after the loop. -/
def finalFlush (st : MdState) : List (List Char) :=
  let r1 :=
    if st.inList && !st.listItems.isEmpty then st.res ++ ulFragOutside st.listItems
    else st.res
  if st.inBq && !st.bqItems.isEmpty then r1 ++ bqFrag pOpenRelaxed st.bqItems
  else r1

/-- `convert_markdown_to_html`. -/
def convert_markdown_to_html (text : List Char) : List Char :=
  if text = [] then text
  else
    joinNL (finalFlush
      (((splitLines (subH3 text)).map pyStrip).foldl processLine initState))

/-!
`parse_sections`: `re.finditer(r'(?m)^\s*##\s+(.+?)\s*$', md_text)`, one
section per match, the body running from the end of a match to the start
of the next (or the end of the text).  The matchers mirror the label
machinery above, with two extra points: the trailing `\s*` before `$` is
greedy (it fixes the end position of the match), and the start of a match
is the line-start position where the leading `\s*` began.
-/

/-- Greedy `\s*$`: consume the longest whitespace run that ends at a `$`
position (end of text, or before a newline).  `last` records whether the
previously consumed character was a newline; returns that flag for the
final consumed character together with the remainder. -/
def dollarRem : Bool → List Char → Option (Bool × List Char)
  | last, [] => some (last, [])
  | last, c :: cs =>
    if pyWs c then
      match dollarRem (c == '\n') cs with
      | some br => some br
      | none => if c == '\n' then some (last, c :: cs) else none
    else if c == '\n' then some (last, c :: cs) else none

/-- `(.+?)\s*$` with a greedy trailing `\s*`: returns the lazy group, the
newline flag for the last consumed character, and the remainder. -/
def tail2 : List Char → Option (List Char × Bool × List Char)
  | [] => none
  | c :: cs =>
    if c == '\n' then none
    else
      match dollarRem false cs with
      | some (b, r) => some ([c], b, r)
      | none => (tail2 cs).map fun p => (c :: p.1, p.2)

/-- `\s+(.+?)\s*$` after `##`, greedy `\s+` from the maximal run down. -/
def h2Go : Nat → List Char → Option (List Char × Bool × List Char)
  | 0, _ => none
  | i + 1, rest =>
    match tail2 (rest.drop (i + 1)) with
    | some p => some p
    | none => h2Go i rest

/-- One attempt of the section pattern at a line start: `\s*##\s+` then
the headline group (`###` fails here because `\s+` needs whitespace). -/
def h2At (s : List Char) : Option (List Char × Bool × List Char) :=
  let t := s.dropWhile pyWs
  if t.take 2 = ['#', '#'] then
    h2Go (((t.drop 2).takeWhile pyWs).length) (t.drop 2)
  else none

/-- Search for the next section heading from the current position: returns
the text before the start of the match, the captured group, the newline
flag at the match end, and the remainder. -/
def findH2 : Bool → List Char → Option (List Char × List Char × Bool × List Char)
  | atLS, s =>
    match (if atLS then h2At s else none) with
    | some (g, b, r) => some ([], g, b, r)
    | none =>
      match s with
      | [] => none
      | c :: cs => (findH2 (c == '\n') cs).map fun p => (c :: p.1, p.2.1, p.2.2.1, p.2.2.2)

/-- After a heading has been found: pair every heading with the text up to
the next heading (or the rest of the document).  Fuel decreases once per
found heading; each heading consumes at least the two `#` characters, so
`length + 1` units never run out. -/
def h2ScanGo : Nat → List Char → Bool → List Char → List (List Char × List Char)
  | 0, g, _, rest => [(g, rest)]
  | f + 1, g, b, rest =>
    match findH2 b rest with
    | none => [(g, rest)]
    | some (pre, g2, b2, r2) => (g, pre) :: h2ScanGo f g2 b2 r2

/-- All `finditer` matches of the section pattern, as
(captured group, body text up to the next match) pairs. -/
def h2Scan (s : List Char) : List (List Char × List Char) :=
  match findH2 true s with
  | none => []
  | some (_, g, b, r) => h2ScanGo (r.length + 1) g b r

structure MdSection where
  heading : List Char
  content : List (List Char)
deriving DecidableEq

/-- The per-section content computation of `parse_sections`: convert the
stripped body, split the HTML on newlines, strip each piece, keep the
non-empty ones. -/
def blockFragments (body : List Char) : List (List Char) :=
  ((splitLines (convert_markdown_to_html body)).map pyStrip).filter
    fun b => !b.isEmpty

/-- `parse_sections`. -/
def parse_sections (md : List Char) : List MdSection :=
  (h2Scan md).map fun p =>
    ⟨pyStrip p.1, blockFragments (pyStrip p.2)⟩

/-!  Theorems about the claims. -/

/-- Whether the two-space-plus-newline break pattern occurs in a string
(the only inline pattern not characterised by a single delimiter
character). -/
def hasBrk : List Char → Bool
  | ' ' :: ' ' :: '\n' :: _ => true
  | _ :: cs => hasBrk cs
  | [] => false

theorem codeAt_none {s : List Char} (h : '\x60' ∉ s) : codeAt s = none := by
  cases s with
  | nil => rfl
  | cons c cs =>
    have : ¬ c = '\x60' := fun hc => h (hc ▸ List.mem_cons_self c cs)
    simp [codeAt, this]

theorem subCodeF_id : ∀ (f : Nat) (s : List Char), '\x60' ∉ s → subCodeF f s = s := by
  intro f
  induction f with
  | zero => intro s _; rfl
  | succ f ih =>
    intro s h
    cases s with
    | nil => rfl
    | cons c cs =>
      rw [subCodeF, codeAt_none h, ih cs (fun hm => h (List.mem_cons_of_mem c hm))]

theorem strongAt_none {s : List Char} (h1 : '*' ∉ s) (h2 : '_' ∉ s) :
    strongAt s = none := by
  match s with
  | [] => rfl
  | [a] => rfl
  | [a, b] => rfl
  | a :: b :: c :: rest =>
    have ha1 : ¬ a = '*' := fun hc => h1 (hc ▸ List.mem_cons_self _ _)
    have ha2 : ¬ a = '_' := fun hc => h2 (hc ▸ List.mem_cons_self _ _)
    simp [strongAt, ha1, ha2]

theorem subStrongF_id : ∀ (f : Nat) (s : List Char), '*' ∉ s → '_' ∉ s →
    subStrongF f s = s := by
  intro f
  induction f with
  | zero => intro s _ _; rfl
  | succ f ih =>
    intro s h1 h2
    cases s with
    | nil => rfl
    | cons c cs =>
      rw [subStrongF, strongAt_none h1 h2,
        ih cs (fun hm => h1 (List.mem_cons_of_mem c hm))
          (fun hm => h2 (List.mem_cons_of_mem c hm))]

theorem emAt_none {s : List Char} (prev : Option Char)
    (h1 : '*' ∉ s) (h2 : '_' ∉ s) : emAt prev s = none := by
  match s with
  | [] => rfl
  | [a] => rfl
  | a :: c :: rest =>
    have ha1 : ¬ a = '*' := fun hc => h1 (hc ▸ List.mem_cons_self _ _)
    have ha2 : ¬ a = '_' := fun hc => h2 (hc ▸ List.mem_cons_self _ _)
    simp [emAt, ha1, ha2]

theorem subEmF_id : ∀ (f : Nat) (prev : Option Char) (s : List Char),
    '*' ∉ s → '_' ∉ s → subEmF f prev s = s := by
  intro f
  induction f with
  | zero => intro prev s _ _; rfl
  | succ f ih =>
    intro prev s h1 h2
    cases s with
    | nil => rfl
    | cons c cs =>
      rw [subEmF, emAt_none prev h1 h2,
        ih (some c) cs (fun hm => h1 (List.mem_cons_of_mem c hm))
          (fun hm => h2 (List.mem_cons_of_mem c hm))]

theorem linkAt_none {s : List Char} (h : '[' ∉ s) : linkAt s = none := by
  cases s with
  | nil => rfl
  | cons c cs =>
    have hc : ¬ c = '[' := fun hc => h (hc ▸ List.mem_cons_self _ _)
    simp [linkAt, hc]

theorem subLinkF_id : ∀ (f : Nat) (s : List Char), '[' ∉ s → subLinkF f s = s := by
  intro f
  induction f with
  | zero => intro s _; rfl
  | succ f ih =>
    intro s h
    cases s with
    | nil => rfl
    | cons c cs =>
      rw [subLinkF, linkAt_none h, ih cs (fun hm => h (List.mem_cons_of_mem c hm))]

theorem subBrk_id : ∀ s : List Char, hasBrk s = false → subBrk s = s := by
  intro s
  induction s using subBrk.induct with
  | case1 rest ih => simp [hasBrk]
  | case2 c rest hne ih =>
    intro h
    rw [hasBrk.eq_2 c rest hne] at h
    rw [subBrk.eq_2 c rest hne, ih h]
  | case3 => intro _; rfl

/-- C1, counterexample: for the section body `"- a\n- b\n\ntext"` the
fragment sequence does not have exactly two entries — the list container
is emitted as one fragment per HTML line, so the claimed two-fragment
output is wrong. -/
theorem c1_counterexample :
    (blockFragments ("- a\n- b\n\ntext").data).length ≠ 2 := by decide

/-- C1, amended: the body `"- a\n- b\n\ntext"` produces exactly five
fragments in order — the list opening tag, one item fragment for `a`, one
for `b`, the list closing tag, and the paragraph fragment for `text`
(nested content of a container yields one fragment per HTML line, not one
combined fragment). -/
theorem c1_fragment_list :
    blockFragments ("- a\n- b\n\ntext").data =
      [("<ul class=\"list-disc list-outside mb-4 space-y-1 pl-5\">").data,
       ("<li>a</li>").data, ("<li>b</li>").data, ("</ul>").data,
       ("<p class=\"mb-4\">text</p>").data] := by decide

/-- C3, counterexample: the bold pass does re-match text produced by the
code pass — the literal inner text `**x**` of an emitted code element is
turned into a strong element, so the converted output differs from the
output the claim requires (code inner text left untouched). -/
theorem c3_counterexample :
    convert_inline_markdown ("\x60**x**\x60").data =
      ("<code class=\x27bg-gray-100 px-1 py-0.5 rounded text-sm\x27><strong>x</strong></code>").data ∧
    ¬ convert_inline_markdown ("\x60**x**\x60").data =
      ("<code class=\x27bg-gray-100 px-1 py-0.5 rounded text-sm\x27>**x**</code>").data := by
  exact ⟨by decide, by decide⟩

/-- C3, amended: the converter applies its substitutions in the fixed
order code, bold, italic, link, line-break, each as a whole-string pass
over the result of the previous one — so later passes may re-match text
produced by earlier passes (bold delimiters inside an emitted code element
are converted, as the second conjunct shows) — and the nested-delimiter
input `"**bold *and* nested**"` still yields a strong element with a
properly nested emphasis element and no delimiter leakage. -/
theorem c3_inline_pass_order :
    (∀ s : List Char,
      convert_inline_markdown s = subBrk (subLink (subEm (subStrong (subCode s))))) ∧
    convert_inline_markdown ("\x60**x**\x60").data =
      ("<code class=\x27bg-gray-100 px-1 py-0.5 rounded text-sm\x27><strong>x</strong></code>").data ∧
    convert_inline_markdown ("**bold *and* nested**").data =
      ("<strong>bold <em>and</em> nested</strong>").data := by
  refine ⟨?_, by decide, by decide⟩
  intro s
  rcases eq_or_ne s [] with h | h
  · subst h; rfl
  · simp [convert_inline_markdown, h]

/-- C4: the three label patterns are searched in strict priority order
(`last updated`, then `updated`, then `effective date` / `effective as
of`), the first match committing the result, and the document-wide
numeric pattern is consulted only when no label pattern matched; on the
concrete document the labelled line beats the unrelated numeric string
`11/11/1111`. -/
theorem c4_label_priority :
    (∀ md g, searchLastUpdated (normalise md) = some g →
      parse_last_updated md = «_try_parse_date» g) ∧
    (∀ md g, searchLastUpdated (normalise md) = none →
      searchUpdated (normalise md) = some g →
      parse_last_updated md = «_try_parse_date» g) ∧
    (∀ md g, searchLastUpdated (normalise md) = none →
      searchUpdated (normalise md) = none →
      searchEffective (normalise md) = some g →
      parse_last_updated md = «_try_parse_date» g) ∧
    (∀ md g, searchLastUpdated (normalise md) = none →
      searchUpdated (normalise md) = none →
      searchEffective (normalise md) = none →
      searchNumericDate (normalise md) = some g →
      parse_last_updated md = «_try_parse_date» g) ∧
    parse_last_updated ("Intro 11/11/1111\nLast updated: 2/3/2025").data =
      .ok ⟨2025, 3, 2⟩ ∧
    searchNumericDate (normalise ("Intro 11/11/1111\nLast updated: 2/3/2025").data) =
      some ("11/11/1111").data := by
  refine ⟨?_, ?_, ?_, ?_, by decide, by decide⟩
  · intro md g h
    unfold parse_last_updated
    simp only [h]
  · intro md g h1 h2
    unfold parse_last_updated
    simp only [h1, h2]
  · intro md g h1 h2 h3
    unfold parse_last_updated
    simp only [h1, h2, h3]
  · intro md g h1 h2 h3 h4
    unfold parse_last_updated
    simp only [h1, h2, h3, h4]

/-- Witness for C4: the first-pattern case at a concrete document. -/
theorem c4_label_priority_witness :
    parse_last_updated ("Last updated: 2/3/2025").data =
      «_try_parse_date» ("2/3/2025").data :=
  c4_label_priority.1 ("Last updated: 2/3/2025").data ("2/3/2025").data (by decide)

/-- C5: the five date grammars are tried in strict priority order
(slash, dash, dot, abbreviated name, full name) with the first success
winning, and each is day-month-year ordered — `"01/02/2025"` parses to
day 1, month 2, year 2025, and the other grammars likewise put the day
first. -/
theorem c5_grammar_priority :
    (∀ raw d, strptimeSlash (pyStrip raw) = some d →
      «_try_parse_date» raw = .ok d) ∧
    (∀ raw d, strptimeSlash (pyStrip raw) = none →
      strptimeDash (pyStrip raw) = some d → «_try_parse_date» raw = .ok d) ∧
    (∀ raw d, strptimeSlash (pyStrip raw) = none →
      strptimeDash (pyStrip raw) = none →
      strptimeDot (pyStrip raw) = some d → «_try_parse_date» raw = .ok d) ∧
    (∀ raw d, strptimeSlash (pyStrip raw) = none →
      strptimeDash (pyStrip raw) = none → strptimeDot (pyStrip raw) = none →
      strptimeAbbr (pyStrip raw) = some d → «_try_parse_date» raw = .ok d) ∧
    (∀ raw d, strptimeSlash (pyStrip raw) = none →
      strptimeDash (pyStrip raw) = none → strptimeDot (pyStrip raw) = none →
      strptimeAbbr (pyStrip raw) = none →
      strptimeFull (pyStrip raw) = some d → «_try_parse_date» raw = .ok d) ∧
    «_try_parse_date» ("01/02/2025").data = .ok ⟨2025, 2, 1⟩ ∧
    «_try_parse_date» ("03-04-2025").data = .ok ⟨2025, 4, 3⟩ ∧
    «_try_parse_date» ("03.04.2025").data = .ok ⟨2025, 4, 3⟩ ∧
    «_try_parse_date» ("3 Apr 2025").data = .ok ⟨2025, 4, 3⟩ ∧
    «_try_parse_date» ("3 April 2025").data = .ok ⟨2025, 4, 3⟩ := by
  refine ⟨?_, ?_, ?_, ?_, ?_, by decide, by decide, by decide, by decide, by decide⟩
  · intro raw d h
    unfold «_try_parse_date» strptimeList
    simp only [h]
  · intro raw d h1 h2
    unfold «_try_parse_date» strptimeList
    simp only [h1, h2]
  · intro raw d h1 h2 h3
    unfold «_try_parse_date» strptimeList
    simp only [h1, h2, h3]
  · intro raw d h1 h2 h3 h4
    unfold «_try_parse_date» strptimeList
    simp only [h1, h2, h3, h4]
  · intro raw d h1 h2 h3 h4 h5
    unfold «_try_parse_date» strptimeList
    simp only [h1, h2, h3, h4, h5]

/-- Witness for C5: the slash grammar at `"01/02/2025"`. -/
theorem c5_grammar_priority_witness :
    «_try_parse_date» ("01/02/2025").data = .ok ⟨2025, 2, 1⟩ :=
  c5_grammar_priority.1 ("01/02/2025").data ⟨2025, 2, 1⟩ (by decide)

/-- C6: when no grammar matches, the digit fallback reads the first three
digit runs as day, month, year and builds the date through the validating
constructor (`"Updated on the 1st of the 2nd month, 2025"` gives
2025-02-01); fewer than three runs fail with `MissingDate`, and an
out-of-range combination such as `"32/13/2025"` fails with
`InvalidDate`. -/
theorem c6_digit_fallback :
    (∀ raw d m y rest, strptimeList (pyStrip raw) = none →
      digitRuns (pyStrip raw) = d :: m :: y :: rest →
      «_try_parse_date» raw = mkDatetime y m d) ∧
    (∀ raw, strptimeList (pyStrip raw) = none →
      (digitRuns (pyStrip raw)).length < 3 →
      «_try_parse_date» raw = .error .missingDate) ∧
    «_try_parse_date» ("Updated on the 1st of the 2nd month, 2025").data =
      .ok ⟨2025, 2, 1⟩ ∧
    «_try_parse_date» ("32/13/2025").data = .error .invalidDate ∧
    «_try_parse_date» ("next month").data = .error .missingDate := by
  refine ⟨?_, ?_, by decide, by decide, by decide⟩
  · intro raw d m y rest h1 h2
    unfold «_try_parse_date»
    simp only [h1, h2]
  · intro raw h1 h2
    unfold «_try_parse_date»
    simp only [h1]
    rcases h : digitRuns (pyStrip raw) with _ | ⟨a, _ | ⟨b, _ | ⟨c, t⟩⟩⟩ <;>
      simp_all
    omega

/-- Witness for C6: the digit-fallback case at the spec's example. -/
theorem c6_digit_fallback_witness :
    «_try_parse_date» ("Updated on the 1st of the 2nd month, 2025").data =
      mkDatetime 2025 2 1 :=
  c6_digit_fallback.1 ("Updated on the 1st of the 2nd month, 2025").data
    1 2 2025 [] (by decide) (by decide)

/-- C10: once a label pattern has matched, extraction commits to that
line's captured remainder — if it fails, the whole extraction fails with
that error even when a numeric date exists elsewhere in the document (the
numeric fallback runs only when no label pattern matched), as the
concrete document `"Updated: soon\n01/01/2025"` shows. -/
theorem c10_label_commit :
    (∀ md g e, searchLastUpdated (normalise md) = some g →
      «_try_parse_date» g = .error e → parse_last_updated md = .error e) ∧
    (∀ md g e, searchLastUpdated (normalise md) = none →
      searchUpdated (normalise md) = some g →
      «_try_parse_date» g = .error e → parse_last_updated md = .error e) ∧
    (∀ md g e, searchLastUpdated (normalise md) = none →
      searchUpdated (normalise md) = none →
      searchEffective (normalise md) = some g →
      «_try_parse_date» g = .error e → parse_last_updated md = .error e) ∧
    parse_last_updated ("Updated: soon\n01/01/2025").data = .error .missingDate ∧
    searchNumericDate (normalise ("Updated: soon\n01/01/2025").data) =
      some ("01/01/2025").data := by
  refine ⟨?_, ?_, ?_, by decide, by decide⟩
  · intro md g e h1 h2
    unfold parse_last_updated
    simp only [h1, h2]
  · intro md g e h1 h2 h3
    unfold parse_last_updated
    simp only [h1, h2, h3]
  · intro md g e h1 h2 h3 h4
    unfold parse_last_updated
    simp only [h1, h2, h3, h4]

/-- Witness for C10: the committed `updated` line of the concrete
document fails with `MissingDate` despite the numeric string below it. -/
theorem c10_label_commit_witness :
    parse_last_updated ("Updated: soon\n01/01/2025").data =
      .error .missingDate :=
  c10_label_commit.2.1 ("Updated: soon\n01/01/2025").data ("soon").data
    .missingDate (by decide) (by decide) (by decide)

theorem tw_all_append (p : Char → Bool) (l r : List Char)
    (h : ∀ x ∈ l, p x = true) : (l ++ r).takeWhile p = l ++ r.takeWhile p := by
  induction l with
  | nil => rfl
  | cons a l ih =>
    simp only [List.cons_append, List.takeWhile_cons, h a (List.mem_cons_self _ _)]
    simp [ih fun x hx => h x (List.mem_cons_of_mem _ hx)]

theorem dw_all_append (p : Char → Bool) (l r : List Char)
    (h : ∀ x ∈ l, p x = true) : (l ++ r).dropWhile p = r.dropWhile p := by
  induction l with
  | nil => rfl
  | cons a l ih =>
    simp only [List.cons_append, List.dropWhile_cons, h a (List.mem_cons_self _ _)]
    exact ih fun x hx => h x (List.mem_cons_of_mem _ hx)

/-- C2, counterexample: the fragment emitted for the lone header body
`"### H"` is the h3 element wrapped inside a paragraph element — not
exactly a level-3 heading fragment as the claim requires. -/
theorem c2_counterexample :
    convert_markdown_to_html ("### H").data =
      ("<p class=\"mb-4\"><h3 class=\"text-lg font-medium text-gray-900 mt-4 mb-2\">H</h3></p>").data ∧
    ¬ convert_markdown_to_html ("### H").data =
      ("<h3 class=\"text-lg font-medium text-gray-900 mt-4 mb-2\">H</h3>").data := by
  exact ⟨by decide, by decide⟩

/-- C2, amended: a `### heading` line is rewritten to a level-3 heading
string by a pre-pass that runs before — and independently of — the
list/blockquote state machine (first two conjuncts); the rewritten line
(which starts with `<`) then flows through the state machine as ordinary
content: it never opens or closes a run and never changes the open-run
flags (third conjunct), it is absorbed into an open list or blockquote
run as a soft-wrap continuation of the last item (fourth and fifth
conjuncts), and outside any run it is emitted wrapped in a paragraph
fragment, not as a bare heading fragment (sixth conjunct). -/
theorem c2_heading_prepass :
    (∀ (c : Char) (g rest : List Char), pyWs c = false →
      (∀ x ∈ g, ¬ x = '\n') →
      h3At ('#' :: '#' :: '#' :: ' ' :: c :: (g ++ '\n' :: rest)) =
        some (c :: g, '\n' :: rest)) ∧
    (∀ (f : Nat) (s g rem : List Char), h3At s = some (g, rem) →
      subH3F (f + 1) true s = h3Open ++ g ++ h3Close ++ subH3F f false rem) ∧
    (∀ (st : MdState) (l : List Char),
      (processLine st ('<' :: l)).inList = st.inList ∧
      (processLine st ('<' :: l)).inBq = st.inBq) ∧
    (∀ (st : MdState) (l : List Char), st.inList = true →
      processLine st ('<' :: l) =
        { st with listItems := appendToLast st.listItems ('<' :: l) }) ∧
    (∀ (st : MdState) (l : List Char), st.inList = false → st.inBq = true →
      processLine st ('<' :: l) =
        { st with bqItems := appendToLast st.bqItems ('<' :: l) }) ∧
    (∀ (st : MdState) (l : List Char), st.inList = false → st.inBq = false →
      processLine st ('<' :: l) = { st with res := st.res ++ [pFrag ('<' :: l)] }) := by
  refine ⟨?_, ?_, ?_, ?_, ?_, ?_⟩
  · intro c g rest hc hg
    have hcn : ¬ c = '\n' := by
      intro h; subst h; simp [pyWs] at hc
    have hall : ∀ x ∈ c :: g, (x != '\n') = true := by
      intro x hx
      rcases List.mem_cons.1 hx with rfl | hx
      · simpa using hcn
      · simpa using hg x hx
    rw [h3At]
    have htw : (' ' :: c :: (g ++ '\n' :: rest)).takeWhile pyWs = [' '] := by
      rw [List.takeWhile_cons, List.takeWhile_cons, hc]
      rfl
    rw [htw]
    show h3Go 1 (' ' :: c :: (g ++ '\n' :: rest)) = _
    rw [h3Go]
    simp only [List.drop_succ_cons, List.drop_zero]
    have e1 : (c :: (g ++ '\n' :: rest)).takeWhile (fun x => x != '\n') = c :: g := by
      have := tw_all_append (fun x => x != '\n') (c :: g) ('\n' :: rest) hall
      simpa using this
    have e2 : (c :: (g ++ '\n' :: rest)).dropWhile (fun x => x != '\n') = '\n' :: rest := by
      have := dw_all_append (fun x => x != '\n') (c :: g) ('\n' :: rest) hall
      simpa using this
    simp [hcn, e1, e2]
  · intro f s g rem h
    cases s with
    | nil => exact absurd h (by simp [h3At])
    | cons c cs => simp [subH3F, h]
  · intro st l
    constructor <;>
      (by_cases h1 : st.inList <;> by_cases h2 : st.inBq <;>
        simp [processLine, List.isPrefixOf, h1, h2, elseBranch])
  · intro st l h1
    simp [processLine, List.isPrefixOf, h1]
  · intro st l h1 h2
    simp [processLine, List.isPrefixOf, h1, h2]
  · intro st l h1 h2
    simp [processLine, List.isPrefixOf, h1, h2, elseBranch]

/-- Witness for C2: the pre-pass at the concrete text `"### H\nx"` and
the paragraph wrapping of the rewritten line outside a run. -/
theorem c2_heading_prepass_witness :
    h3At ('#' :: '#' :: '#' :: ' ' :: 'H' :: (("").data ++ '\n' :: ("x").data)) =
      some ('H' :: ("").data, '\n' :: ("x").data) ∧
    processLine initState ('<' :: ("h3>").data) =
      { initState with res := initState.res ++ [pFrag ('<' :: ("h3>").data)] } :=
  ⟨c2_heading_prepass.1 'H' ("").data ("x").data (by decide) (by decide),
   c2_heading_prepass.2.2.2.2.2 initState ("h3>").data (by decide) (by decide)⟩

/-- C8: the inline converter is the identity on strings containing no
inline Markdown delimiters (no backtick, star, underscore, opening
bracket, and no two-space line break), empty input is returned unchanged
rather than raising, and hence the converter is idempotent on its own
output for such strings. -/
theorem c8_inline_identity :
    (∀ s : List Char, '\x60' ∉ s → '*' ∉ s → '_' ∉ s → '[' ∉ s →
      hasBrk s = false → convert_inline_markdown s = s) ∧
    convert_inline_markdown [] = [] ∧
    (∀ s : List Char, '\x60' ∉ s → '*' ∉ s → '_' ∉ s → '[' ∉ s →
      hasBrk s = false →
      convert_inline_markdown (convert_inline_markdown s) =
        convert_inline_markdown s) := by
  have key : ∀ s : List Char, '\x60' ∉ s → '*' ∉ s → '_' ∉ s → '[' ∉ s →
      hasBrk s = false → convert_inline_markdown s = s := by
    intro s h1 h2 h3 h4 h5
    rcases eq_or_ne s [] with rfl | hne
    · rfl
    · rw [convert_inline_markdown, if_neg hne]
      rw [show subCode s = s from subCodeF_id _ s h1]
      rw [show subStrong s = s from subStrongF_id _ s h2 h3]
      rw [show subEm s = s from subEmF_id _ none s h2 h3]
      rw [show subLink s = s from subLinkF_id _ s h4]
      exact subBrk_id s h5
  refine ⟨key, rfl, ?_⟩
  intro s h1 h2 h3 h4 h5
  rw [key s h1 h2 h3 h4 h5, key s h1 h2 h3 h4 h5]

/-- Witness for C8 at a concrete plain string. -/
theorem c8_inline_identity_witness :
    convert_inline_markdown ("hello, world.").data = ("hello, world.").data :=
  c8_inline_identity.1 ("hello, world.").data (by decide) (by decide)
    (by decide) (by decide) (by decide)

/-- Invariant of the line state machine: an open run has a non-empty
item buffer. -/
def wfState (st : MdState) : Prop :=
  (st.inList = true → st.listItems ≠ []) ∧ (st.inBq = true → st.bqItems ≠ [])

theorem appendToLast_ne_nil (items : List (List Char)) (l : List Char)
    (h : items ≠ []) : appendToLast items l ≠ [] := by
  match items with
  | [] => exact absurd rfl h
  | [it] => simp [appendToLast]
  | it :: it2 :: rest => simp [appendToLast]

/-- The `else` branch without the two dead container flushes. -/
def elseBranchND (st : MdState) (line : List Char) : MdState :=
  if !line.isEmpty then { st with res := st.res ++ [pFrag line] } else st

/-- `processLine` with the flush-before-regular-content code removed from
the `else` branch; provably equal to `processLine` everywhere. -/
def processLineND (st : MdState) (line : List Char) : MdState :=
  if List.isPrefixOf ('-' :: [' ']) line then
    let st1 := if st.inList then st else { st with inList := true, listItems := [] }
    { st1 with listItems := st1.listItems ++ [line.drop 2] }
  else if List.isPrefixOf ['-'] line then
    let st1 := if st.inList then st else { st with inList := true, listItems := [] }
    { st1 with listItems := st1.listItems ++ [pyStrip (line.drop 1)] }
  else if List.isPrefixOf ('>' :: [' ']) line then
    let st1 := if st.inBq then st else { st with inBq := true, bqItems := [] }
    { st1 with bqItems := st1.bqItems ++ [line.drop 2] }
  else if List.isPrefixOf ['>'] line then
    let st1 := if st.inBq then st else { st with inBq := true, bqItems := [] }
    { st1 with bqItems := st1.bqItems ++ [pyStrip (line.drop 1)] }
  else if st.inList && !line.isEmpty then
    { st with listItems := appendToLast st.listItems line }
  else if st.inBq && !line.isEmpty then
    { st with bqItems := appendToLast st.bqItems line }
  else if (st.inList || st.inBq) && line.isEmpty then
    blankFlush st
  else
    elseBranchND st line

/-- C9, counterexample: with a list run open (the state reached from the
line `- a`), the non-empty line `> b` is not absorbed into the open run —
the list buffer is unchanged and the line instead opens a blockquote run
that proceeds in parallel, refuting the claim that every subsequent
non-empty line is absorbed into the open run. -/
theorem c9_counterexample :
    processLine initState ("- a").data = ⟨true, false, [("a").data], [], []⟩ ∧
    (processLine ⟨true, false, [("a").data], [], []⟩ ("> b").data).listItems =
      [("a").data] ∧
    (processLine ⟨true, false, [("a").data], [], []⟩ ("> b").data).bqItems =
      [("b").data] ∧
    (processLine ⟨true, false, [("a").data], [], []⟩ ("> b").data).inList = true ∧
    (processLine ⟨true, false, [("a").data], [], []⟩ ("> b").data).inBq = true := by
  refine ⟨by decide, by decide, by decide, by decide, by decide⟩

/-- C9, amended: whenever a run is open its buffer is non-empty (the
invariant holds initially and is preserved by every line); a non-empty
line never closes an open run — a line bearing the other container's
marker is diverted into that container's own run, every other non-marker
non-empty line soft-wraps onto the last item — so a run is closed only by
a blank line or end of input; consequently the flush-before-regular-
content code in the final `else` branch is unreachable: `processLine`
equals the machine with that code removed. -/
theorem c9_machine_invariants :
    wfState initState ∧
    (∀ (st : MdState) (l : List Char), wfState st → wfState (processLine st l)) ∧
    (∀ (st : MdState) (l : List Char), l ≠ [] →
      (st.inList = true → (processLine st l).inList = true) ∧
      (st.inBq = true → (processLine st l).inBq = true)) ∧
    (∀ (st : MdState) (l : List Char), processLine st l = processLineND st l) := by
  refine ⟨⟨by simp [initState], by simp [initState]⟩, ?_, ?_, ?_⟩
  · intro st l hwf
    obtain ⟨w1, w2⟩ := hwf
    unfold processLine
    split_ifs with h1 h2 h3 h4 h5 h6 h7
    all_goals simp only [wfState, blankFlush, elseBranch]
    all_goals try split_ifs
    all_goals simp_all [appendToLast_ne_nil]
  · intro st l hne
    unfold processLine
    split_ifs with h1 h2 h3 h4 h5 h6 h7
    all_goals simp_all [elseBranch, blankFlush]
  · intro st l
    unfold processLine processLineND
    split_ifs with h1 h2 h3 h4 h5 h6 h7 <;> try rfl
    by_cases hl : l = [] <;> simp_all [elseBranch, elseBranchND]

/-- Witness for C9: invariant preservation at a concrete state and
line. -/
theorem c9_machine_invariants_witness :
    wfState (processLine initState (("- a").data)) :=
  c9_machine_invariants.2.1 initState ("- a").data
    ⟨by simp [initState], by simp [initState]⟩

/-!  Decomposition lemmas for the section splitter (claim C7): every
successful match consumes a non-empty piece of the input, so the scan
splits the document into the text before the first heading, the matched
headings, and the section bodies, in document order and without
overlap. -/

theorem dollarRem_suffix : ∀ (s : List Char) (last b : Bool) (r : List Char),
    dollarRem last s = some (b, r) → ∃ c, s = c ++ r := by
  intro s
  induction s with
  | nil =>
    intro last b r h
    simp only [dollarRem, Option.some.injEq, Prod.mk.injEq] at h
    exact ⟨[], by simp [← h.2]⟩
  | cons c cs ih =>
    intro last b r h
    rw [dollarRem] at h
    by_cases hw : pyWs c
    · rw [if_pos hw] at h
      cases hrec : dollarRem (c == '\n') cs with
      | some br =>
        obtain ⟨b1, r1⟩ := br
        rw [hrec] at h
        simp only [Option.some.injEq, Prod.mk.injEq] at h
        obtain ⟨hb, hr⟩ := h
        obtain ⟨c', hc'⟩ := ih (c == '\n') b1 r1 hrec
        exact ⟨c :: c', by rw [← hr]; simp [hc']⟩
      | none =>
        rw [hrec] at h
        by_cases hn : c == '\n'
        · rw [if_pos hn] at h
          simp only [Option.some.injEq, Prod.mk.injEq] at h
          exact ⟨[], by simp [← h.2]⟩
        · rw [if_neg hn] at h
          exact absurd h (by simp)
    · rw [if_neg hw] at h
      by_cases hn : c == '\n'
      · rw [if_pos hn] at h
        simp only [Option.some.injEq, Prod.mk.injEq] at h
        exact ⟨[], by simp [← h.2]⟩
      · rw [if_neg hn] at h
        exact absurd h (by simp)

theorem tail2_suffix : ∀ (s g : List Char) (b : Bool) (r : List Char),
    tail2 s = some (g, b, r) → ∃ c, s = c ++ r ∧ c ≠ [] := by
  intro s
  induction s with
  | nil => intro g b r h; exact absurd h (by simp [tail2])
  | cons c cs ih =>
    intro g b r h
    rw [tail2] at h
    by_cases hn : c == '\n'
    · rw [if_pos hn] at h; exact absurd h (by simp)
    · rw [if_neg hn] at h
      cases hrec : dollarRem false cs with
      | some br =>
        obtain ⟨b1, r1⟩ := br
        rw [hrec] at h
        simp only [Option.some.injEq, Prod.mk.injEq] at h
        obtain ⟨hg, hb, hr⟩ := h
        obtain ⟨c', hc'⟩ := dollarRem_suffix cs false b1 r1 hrec
        exact ⟨c :: c', by rw [← hr]; simp [hc'], by simp⟩
      | none =>
        rw [hrec] at h
        cases hrec2 : tail2 cs with
        | some p =>
          obtain ⟨g2, b2, r2⟩ := p
          rw [hrec2] at h
          simp only [Option.map_some', Option.some.injEq, Prod.mk.injEq] at h
          obtain ⟨hg, hb, hr⟩ := h
          obtain ⟨c'', hc'', hne⟩ := ih g2 b2 r2 hrec2
          exact ⟨c :: c'', by rw [← hr]; simp [hc''], by simp⟩
        | none => rw [hrec2] at h; exact absurd h (by simp)

theorem h2Go_suffix : ∀ (i : Nat) (rest g : List Char) (b : Bool) (r : List Char),
    h2Go i rest = some (g, b, r) → ∃ c, rest = c ++ r ∧ c ≠ [] := by
  intro i
  induction i with
  | zero => intro rest g b r h; exact absurd h (by simp [h2Go])
  | succ i ih =>
    intro rest g b r h
    rw [h2Go] at h
    cases hrec : tail2 (rest.drop (i + 1)) with
    | some p =>
      obtain ⟨g2, b2, r2⟩ := p
      rw [hrec] at h
      simp only [Option.some.injEq, Prod.mk.injEq] at h
      obtain ⟨hg, hb, hr⟩ := h
      obtain ⟨c', hc', hne⟩ := tail2_suffix _ g2 b2 r2 hrec
      refine ⟨rest.take (i + 1) ++ c', ?_, ?_⟩
      · rw [← hr]
        conv_lhs => rw [← List.take_append_drop (i + 1) rest]
        rw [hc', List.append_assoc]
      · simp [hne]
    | none =>
      rw [hrec] at h
      exact ih rest g b r h

theorem h2At_suffix : ∀ (s g : List Char) (b : Bool) (r : List Char),
    h2At s = some (g, b, r) → ∃ c, s = c ++ r ∧ c ≠ [] := by
  intro s g b r h
  rw [h2At] at h
  by_cases hpp : (s.dropWhile pyWs).take 2 = ['#', '#']
  · rw [if_pos hpp] at h
    obtain ⟨c', hc', hne⟩ := h2Go_suffix _ _ g b r h
    refine ⟨s.takeWhile pyWs ++ (['#', '#'] ++ c'), ?_, by simp⟩
    conv_lhs => rw [← List.takeWhile_append_dropWhile (p := pyWs) (l := s)]
    conv_lhs => rw [← List.take_append_drop 2 (s.dropWhile pyWs)]
    rw [hpp, hc']
    simp
  · rw [if_neg hpp] at h
    exact absurd h (by simp)

theorem findH2_decomp : ∀ (s : List Char) (atLS : Bool) (pre g : List Char)
    (b : Bool) (r : List Char),
    findH2 atLS s = some (pre, g, b, r) → ∃ c, s = pre ++ c ++ r ∧ c ≠ [] := by
  intro s
  induction s with
  | nil =>
    intro atLS pre g b r h
    rw [findH2] at h
    cases atLS with
    | true =>
      simp only [if_true] at h
      cases hat : h2At [] with
      | some p =>
        obtain ⟨g2, b2, r2⟩ := p
        rw [hat] at h
        simp only [Option.some.injEq, Prod.mk.injEq] at h
        obtain ⟨hpre, hg, hb, hr⟩ := h
        obtain ⟨c', hc', hne⟩ := h2At_suffix [] g2 b2 r2 hat
        subst hpre; subst hr
        exact ⟨c', by simpa using hc', hne⟩
      | none => rw [hat] at h; exact absurd h (by simp)
    | false => exact absurd h (by simp)
  | cons c0 cs ih =>
    intro atLS pre g b r h
    rw [findH2] at h
    cases hat : (if atLS = true then h2At (c0 :: cs) else none) with
    | some p =>
      obtain ⟨g2, b2, r2⟩ := p
      rw [hat] at h
      simp only [Option.some.injEq, Prod.mk.injEq] at h
      obtain ⟨hpre, hg, hb, hr⟩ := h
      have hat2 : h2At (c0 :: cs) = some (g2, b2, r2) := by
        cases atLS with
        | true => simpa using hat
        | false => exact absurd hat (by simp)
      obtain ⟨c', hc', hne⟩ := h2At_suffix _ g2 b2 r2 hat2
      subst hpre; subst hr
      exact ⟨c', by simpa using hc', hne⟩
    | none =>
      rw [hat] at h
      cases hrec : findH2 (c0 == '\n') cs with
      | some q =>
        obtain ⟨p2, g2, b2, r2⟩ := q
        rw [hrec] at h
        simp only [Option.map_some', Option.some.injEq, Prod.mk.injEq] at h
        obtain ⟨hpre, hg, hb, hr⟩ := h
        obtain ⟨c', hc', hne⟩ := ih (c0 == '\n') p2 g2 b2 r2 hrec
        subst hpre; subst hr
        exact ⟨c', by simp [hc'], hne⟩
      | none => rw [hrec] at h; exact absurd h (by simp)

/-- Interleaves the bodies of the scanned (heading, body) pairs with the
consumed heading matches: `glue pairs cs` is
`body₀ ++ c₁ ++ body₁ ++ … ++ bodyₙ` when `cs = [c₁, …, cₙ]`. -/
def glue : List (List Char × List Char) → List (List Char) → List Char
  | [(_, body)], [] => body
  | (_, body) :: ps, c :: cs => body ++ c ++ glue ps cs
  | _, _ => []

theorem h2ScanGo_decomp : ∀ (f : Nat) (g : List Char) (b : Bool) (rest : List Char),
    ∃ cs, cs.length + 1 = (h2ScanGo f g b rest).length ∧
      glue (h2ScanGo f g b rest) cs = rest := by
  intro f
  induction f with
  | zero => intro g b rest; exact ⟨[], by simp [h2ScanGo, glue]⟩
  | succ f ih =>
    intro g b rest
    rw [h2ScanGo]
    cases hf : findH2 b rest with
    | none => exact ⟨[], by simp [glue]⟩
    | some q =>
      obtain ⟨pre, g2, b2, r2⟩ := q
      obtain ⟨c, hc, hcne⟩ := findH2_decomp rest b pre g2 b2 r2 hf
      obtain ⟨cs, hl, hg⟩ := ih g2 b2 r2
      refine ⟨c :: cs, ?_, ?_⟩
      · simpa using hl
      · rw [glue, hg, ← hc]

/-- C7: the section splitter is exhaustive and non-overlapping — zero
heading matches yield an empty section list (first conjunct); when a
heading matches, the document decomposes as the text before the first
match, the non-empty matched heading text, and then the section bodies
interleaved with the further matches in document order, so each body is
exactly the text strictly between one match's end and the next match's
start (or the end of the document), and no two bodies overlap (second
conjunct); each section carries the trimmed captured heading text and the
fragments of its own body (third conjunct); a concrete two-heading
document yields `[A, B]` in order with correctly scoped bodies (fourth
conjunct). -/
theorem c7_section_scoping :
    (∀ md : List Char, findH2 true md = none → parse_sections md = []) ∧
    (∀ (md pre g : List Char) (b : Bool) (r : List Char),
      findH2 true md = some (pre, g, b, r) →
      ∃ consumed cs, consumed ≠ [] ∧
        md = pre ++ consumed ++ glue (h2Scan md) cs ∧
        cs.length + 1 = (h2Scan md).length) ∧
    (∀ md : List Char, parse_sections md =
      (h2Scan md).map fun p => ⟨pyStrip p.1, blockFragments (pyStrip p.2)⟩) ∧
    parse_sections ("## A\none\n## B\ntwo").data =
      [⟨("A").data, [("<p class=\"mb-4\">one</p>").data]⟩,
       ⟨("B").data, [("<p class=\"mb-4\">two</p>").data]⟩] := by
  refine ⟨?_, ?_, fun md => rfl, by decide⟩
  · intro md h
    simp [parse_sections, h2Scan, h]
  · intro md pre g b r h
    obtain ⟨consumed, hcon, hcne⟩ := findH2_decomp md true pre g b r h
    obtain ⟨cs, hl, hg⟩ := h2ScanGo_decomp (r.length + 1) g b r
    have hsc : h2Scan md = h2ScanGo (r.length + 1) g b r := by simp [h2Scan, h]
    refine ⟨consumed, cs, hcne, ?_, ?_⟩
    · rw [hsc, hg, ← hcon]
    · rw [hsc]; exact hl

/-- Witness for C7: a document without section headings yields the empty
section list. -/
theorem c7_section_scoping_witness :
    parse_sections ("no headings here").data = [] :=
  c7_section_scoping.1 ("no headings here").data (by decide)

end MdToJson
